import Mathlib

/-!
Shallow embedding of `cmd/compose/generate.go` (the `compose generate`
command core): field mappers, service assembler, project aggregator and
emission control flow, together with theorems checking the specification's
claims about them.

Go maps (`HostConfig.PortBindings`, `Config.ExposedPorts`, the project's
service map) are modelled as association lists carrying an explicit
enumeration order; Go slices are lists; Go strings are `String`;
`nil`-vs-set slice fields (`ServiceConfig.Command`) are `Option`.
-/

/-- Models Go `strings.Split`: accumulate the current field, cut at each
separator.  `strings.Split("", sep) = [""]`, matching the `[]` base case. -/
def splitOnAux (sep : Char) : List Char → List Char → List String
  | [], acc => [String.mk acc.reverse]
  | c :: cs, acc =>
    if c = sep then String.mk acc.reverse :: splitOnAux sep cs []
    else splitOnAux sep cs (c :: acc)

/-- `strings.Split(s, ":")` as used on legacy bind strings. -/
def splitColon (s : String) : List String :=
  splitOnAux ':' s.data []

/-- Models Go `strings.SplitN(s, "=", 2)`: split at the first `'='` only.
Returns `(s, none)` when no `'='` occurs (Go: a one-element slice). -/
def cutEqAux : List Char → List Char → String × Option String
  | [], acc => (String.mk acc.reverse, none)
  | c :: cs, acc =>
    if c = '=' then (String.mk acc.reverse, some (String.mk cs))
    else cutEqAux cs (c :: acc)

/-- Split an environment string `KEY=VALUE` / bare `KEY` at the first `'='`. -/
def cutEq (s : String) : String × Option String :=
  cutEqAux s.data []

/-- `nat.Port` key of the engine's port-binding table: container port number
plus protocol (e.g. `80/tcp`).  `port.Int()` / `port.Port()` both expose the
bare number, modelled as `num`. -/
structure PortKey where
  num : Nat
  proto : String
deriving DecidableEq

/-- `nat.PortBinding`: one host binding {HostIP, HostPort}. -/
structure PortBinding where
  hostIP : String
  hostPort : String
deriving DecidableEq

/-- `types.ServicePortConfig` (the fields the generator sets). -/
structure ServicePortConfig where
  hostIP : String
  published : String
  target : Nat
deriving DecidableEq

/-- `mount.BindOptions` (fields consumed by the generator). -/
structure BindOptions where
  propagation : String
  createMountpoint : Bool
deriving DecidableEq

/-- `mount.VolumeOptions` (fields consumed by the generator). -/
structure VolumeOptions where
  noCopy : Bool
  subpath : String
deriving DecidableEq

/-- `mount.TmpfsOptions` (fields consumed by the generator). -/
structure TmpfsOptions where
  sizeBytes : Nat
  mode : Nat
deriving DecidableEq

/-- `mount.Mount`: one structured mount record from `HostConfig.Mounts`. -/
structure Mount where
  type : String
  source : String
  target : String
  readOnly : Bool
  consistency : String
  bindOptions : Option BindOptions
  volumeOptions : Option VolumeOptions
  tmpfsOptions : Option TmpfsOptions
deriving DecidableEq

/-- `types.ServiceVolumeBind`. -/
structure ServiceVolumeBind where
  propagation : String
  createHostPath : Bool
deriving DecidableEq

/-- `types.ServiceVolumeVolume`. -/
structure ServiceVolumeVolume where
  noCopy : Bool
  subpath : String
deriving DecidableEq

/-- `types.ServiceVolumeTmpfs`. -/
structure ServiceVolumeTmpfs where
  size : Nat
  mode : Nat
deriving DecidableEq

/-- `types.ServiceVolumeConfig`. -/
structure ServiceVolumeConfig where
  type : String
  source : String
  target : String
  readOnly : Bool
  consistency : String
  bind : Option ServiceVolumeBind
  volume : Option ServiceVolumeVolume
  tmpfs : Option ServiceVolumeTmpfs
deriving DecidableEq

/-- `container.Config` fields consumed by the generator.  `exposedPorts`
is the enumeration of the `nat.PortSet` map. -/
structure ContainerConfig where
  image : String
  env : List String
  entrypoint : List String
  cmd : List String
  exposedPorts : List PortKey
deriving DecidableEq

/-- `container.HostConfig` fields consumed by the generator.
`portBindings` is the enumeration of the `nat.PortMap` map: container
port key to its (possibly empty) list of host bindings. -/
structure HostConfig where
  portBindings : List (PortKey × List PortBinding)
  binds : List String
  mounts : List Mount
deriving DecidableEq

/-- `engineTypes.ContainerJSON`: the inspect record fields consumed. -/
structure ContainerJSON where
  name : String
  config : ContainerConfig
  hostConfig : HostConfig
deriving DecidableEq

/-- `getServiceName`: strip one leading `/` from a non-empty name, else
synthesize `service-<seed>`. -/
def getServiceName (c : ContainerJSON) (seed : Nat) : String :=
  if c.name ≠ "" then
    match c.name.data with
    | '/' :: rest => String.mk rest
    | _ => c.name
  else
    "service-" ++ toString seed

/-- Insertion into the `portsBinding` set (Go `map[string]bool` assignment:
membership is all that is consumed). -/
def setInsert (s : List Nat) (n : Nat) : List Nat :=
  if n ∈ s then s else s ++ [n]

/-- The `portsBinding` set built by `getServiceBindingsPorts`: one
insertion of `port.Port()` per host binding of a non-empty binding list. -/
def portsBindingSet (table : List (PortKey × List PortBinding)) : List Nat :=
  table.foldl
    (fun s e =>
      if e.2.length > 0 then e.2.foldl (fun s2 _ => setInsert s2 e.1.num) s
      else s)
    []

/-- `getServiceBindingsPorts`: published ports (one entry per host binding,
carrying HostIP, HostPort and the numeric container port as target) and the
exposed-port list filtered by the bound-port set. -/
def getServiceBindingsPorts (c : ContainerJSON) :
    List ServicePortConfig × List Nat :=
  let ports := c.hostConfig.portBindings.foldl
    (fun acc e =>
      if e.2.length > 0 then
        acc ++ e.2.map (fun b => ⟨b.hostIP, b.hostPort, e.1.num⟩)
      else acc)
    []
  let bound := portsBindingSet c.hostConfig.portBindings
  let exposedPorts := c.config.exposedPorts.foldl
    (fun acc p => if p.num ∈ bound then acc else acc ++ [p.num])
    []
  (ports, exposedPorts)

/-- One step of `types.NewMappingWithEquals`: Go map assignment on an
ordered association list — replace in place when the key exists, append
otherwise. -/
def upsertEnv (m : List (String × Option String)) (k : String)
    (v : Option String) : List (String × Option String) :=
  if m.any (fun p => p.1 = k) then
    m.map (fun p => if p.1 = k then (k, v) else p)
  else
    m ++ [(k, v)]

/-- Modelled from the spec: `types.NewMappingWithEquals` (compose-go, not
under `src/`), the key=value parser `getServiceEnv` delegates to.  Parses
each string at its first `'='` — bare `KEY` maps to no value (`none`),
`KEY=VALUE` to the literal value — into an ordered mapping where the last
occurrence of a duplicate key wins. -/
def NewMappingWithEquals (values : List String) :
    List (String × Option String) :=
  values.foldl (fun m s => upsertEnv m (cutEq s).1 (cutEq s).2) []

/-- Lookup in the ordered environment mapping: `some v?` when the key is
present (`v? = none` for a bare key), `none` when absent. -/
def lookupEnv (m : List (String × Option String)) (k : String) :
    Option (Option String) :=
  (m.find? (fun p => p.1 = k)).map Prod.snd

/-- `getServiceEnv`. -/
def getServiceEnv (c : ContainerJSON) : List (String × Option String) :=
  NewMappingWithEquals c.config.env

/-- `getServiceEntrypoint`: pass-through. -/
def getServiceEntrypoint (c : ContainerJSON) : List String :=
  c.config.entrypoint

/-- `getServiceCmd`: pass-through. -/
def getServiceCmd (c : ContainerJSON) : List String :=
  c.config.cmd

/-- The legacy-bind branch of `getServiceMounts`, per bind string: split on
`:`; fewer than 2 fields is a per-entry error (the warning text printed);
otherwise a bind mount, read-only unless exactly 3 fields with third `rw`. -/
def processBind (bString : String) : Except String ServiceVolumeConfig :=
  match splitColon bString with
  | s :: t :: rest =>
    .ok { type := "bind", source := s, target := t,
          readOnly := match rest with
            | [m] => if m = "rw" then false else true
            | _ => true,
          consistency := "", bind := none, volume := none, tmpfs := none }
  | _ => .error ("unable to process bind mount: " ++ bString)

/-- The structured-mount branch of `getServiceMounts`, per mount record. -/
def structuredMount (m : Mount) : ServiceVolumeConfig :=
  { type := m.type, source := m.source, target := m.target,
    readOnly := m.readOnly, consistency := m.consistency,
    bind := m.bindOptions.map (fun bo => ⟨bo.propagation, bo.createMountpoint⟩),
    volume := m.volumeOptions.map (fun vo => ⟨vo.noCopy, vo.subpath⟩),
    tmpfs := m.tmpfsOptions.map (fun t0 => ⟨t0.sizeBytes, t0.mode⟩) }

/-- `getServiceMounts`: legacy binds (collecting per-entry warnings rather
than printing them) followed by structured mounts. -/
def getServiceMounts (c : ContainerJSON) :
    List ServiceVolumeConfig × List String :=
  let fromBinds := c.hostConfig.binds.foldl
    (fun acc b =>
      match processBind b with
      | .ok m => (acc.1 ++ [m], acc.2)
      | .error w => (acc.1, acc.2 ++ [w]))
    ([], [])
  (fromBinds.1 ++ c.hostConfig.mounts.map structuredMount, fromBinds.2)

/-- `getServiceImage`: the image reference as the engine reported it. -/
def getServiceImage (c : ContainerJSON) : String :=
  c.config.image

/-- `types.ServiceConfig` (the fields the generator sets).  `command` is
`Option` because the Go field is only assigned when non-empty (`nil`
otherwise). -/
structure ServiceConfig where
  name : String
  image : String
  environment : List (String × Option String)
  expose : List Nat
  entrypoint : List String
  ports : List ServicePortConfig
  volumes : List ServiceVolumeConfig
  command : Option (List String)
deriving DecidableEq

/-- The loop body of `runGenerate` assembling one service from one inspect
record and its derived name. -/
def assembleService (c : ContainerJSON) (name : String) : ServiceConfig :=
  { name := name,
    image := getServiceImage c,
    environment := getServiceEnv c,
    expose := (getServiceBindingsPorts c).2,
    entrypoint := getServiceEntrypoint c,
    ports := (getServiceBindingsPorts c).1,
    volumes := (getServiceMounts c).1,
    command := if (getServiceCmd c).length > 0 then some (getServiceCmd c) else none }

/-- `services[name] = service`: Go map assignment on the ordered service
mapping — overwrite in place when the name exists, append otherwise. -/
def upsertService (svcs : List (String × ServiceConfig)) (name : String)
    (s : ServiceConfig) : List (String × ServiceConfig) :=
  if svcs.any (fun p => p.1 = name) then
    svcs.map (fun p => if p.1 = name then (name, s) else p)
  else
    svcs ++ [(name, s)]

/-- The container loop of `runGenerate`: inspect each identifier in order
(fail-fast on the first inspect error), assemble its service and insert it
under its derived name.  `i` is the positional index of the next argument. -/
def processContainers (inspect : String → Except String ContainerJSON) :
    List String → Nat → List (String × ServiceConfig) →
    Except String (List (String × ServiceConfig))
  | [], _, svcs => .ok svcs
  | arg :: rest, i, svcs =>
    match inspect arg with
    | .error e => .error e
    | .ok c =>
      let name := getServiceName c i
      processContainers inspect rest (i + 1)
        (upsertService svcs name (assembleService c name))

/-- `types.Project` (the fields the generator sets). -/
structure Project where
  name : String
  workingDir : String
  services : List (String × ServiceConfig)
deriving DecidableEq

/-- Observable outcome of a completed run: diagnostics printed for
non-fatal anomalies, and the document text printed to standard output. -/
structure RunResult where
  diagnostics : List String
  printed : String
deriving DecidableEq

/-- `runGenerate`: the whole pipeline.  `inspect` stands for the engine
client's `ContainerInspect`, `marshal` for `Project.MarshalYAML` (both
external collaborators).  An inspect failure returns the error unchanged;
a marshal failure emits the `oops bad` diagnostic and still prints the
best-effort output (the string of the nil YAML) and succeeds. -/
def runGenerate (inspect : String → Except String ContainerJSON)
    (marshal : Project → Except String String)
    (projectName workingDir : String) (args : List String) :
    Except String RunResult :=
  match processContainers inspect args 0 [] with
  | .error e => .error e
  | .ok svcs =>
    let p : Project := ⟨projectName, workingDir, svcs⟩
    match marshal p with
    | .ok y => .ok ⟨[], "\n" ++ y⟩
    | .error e => .ok ⟨["oops bad " ++ e], "\n"⟩

/-- The warning a legacy bind string contributes, when malformed. -/
def bindWarning (b : String) : Option String :=
  match processBind b with
  | .error w => some w
  | .ok _ => none

/-- Example inspect record: named `/web`, port 80/tcp bound twice (IPv4 and
IPv6), 443/tcp present with an empty binding list, 80/tcp and 9000/tcp
exposed. -/
def egContainerWeb : ContainerJSON :=
  { name := "/web",
    config := { image := "nginx", env := [], entrypoint := [], cmd := [],
                exposedPorts := [⟨80, "tcp"⟩, ⟨9000, "tcp"⟩] },
    hostConfig := { portBindings :=
                      [(⟨80, "tcp"⟩, [⟨"0.0.0.0", "8080"⟩, ⟨"::", "8080"⟩]),
                       (⟨443, "tcp"⟩, [])],
                    binds := [], mounts := [] } }

/-- Example inspect record: engine-supplied name `/service-1`. -/
def egContainerNamed : ContainerJSON :=
  { name := "/service-1",
    config := { image := "img-a", env := [], entrypoint := [],
                cmd := ["sh", "-c", "run"], exposedPorts := [] },
    hostConfig := { portBindings := [], binds := [], mounts := [] } }

/-- Example inspect record: no engine-supplied name. -/
def egContainerUnnamed : ContainerJSON :=
  { name := "",
    config := { image := "img-b", env := [], entrypoint := [], cmd := [],
                exposedPorts := [] },
    hostConfig := { portBindings := [], binds := [], mounts := [] } }

/-- Example inspect record whose name is exactly the separator `/`. -/
def egContainerSlash : ContainerJSON :=
  { name := "/",
    config := { image := "img-c", env := [], entrypoint := [], cmd := [],
                exposedPorts := [] },
    hostConfig := { portBindings := [], binds := [], mounts := [] } }

/-- Example engine client: `c0` is the named container, anything else the
unnamed one. -/
def egInspect2 (a : String) : Except String ContainerJSON :=
  if a = "c0" then .ok egContainerNamed else .ok egContainerUnnamed

/-- Example engine client that fails on the identifier `bad`. -/
def egInspectFail (a : String) : Except String ContainerJSON :=
  if a = "bad" then .error "boom" else .ok egContainerNamed

/-- Example serializer that always succeeds. -/
def egMarshalOk (_ : Project) : Except String String :=
  .ok "services:"

/-- Example serializer that always fails. -/
def egMarshalFail (_ : Project) : Except String String :=
  .error "nope"

/-- The service mapping produced from `["c0", "c1"]` under `egInspect2`:
the unnamed container's synthesized name `service-1` collides with the
named container's `service-1` and overwrites it. -/
def egCollidedServices : List (String × ServiceConfig) :=
  [("service-1", assembleService egContainerUnnamed "service-1")]

/-- One enumeration order of a two-entry port-binding table. -/
def egTableA : List (PortKey × List PortBinding) :=
  [(⟨80, "tcp"⟩, [⟨"0.0.0.0", "8080"⟩]),
   (⟨443, "tcp"⟩, [⟨"0.0.0.0", "8443"⟩])]

/-- The same table enumerated in the opposite order. -/
def egTableB : List (PortKey × List PortBinding) :=
  [(⟨443, "tcp"⟩, [⟨"0.0.0.0", "8443"⟩]),
   (⟨80, "tcp"⟩, [⟨"0.0.0.0", "8080"⟩])]

/-- A container carrying `egTableA`. -/
def egContainerOrderA : ContainerJSON :=
  { name := "/web",
    config := { image := "nginx", env := [], entrypoint := [], cmd := [],
                exposedPorts := [] },
    hostConfig := { portBindings := egTableA, binds := [], mounts := [] } }

/-- The same container carrying the same binding map enumerated as
`egTableB`. -/
def egContainerOrderB : ContainerJSON :=
  { name := "/web",
    config := { image := "nginx", env := [], entrypoint := [], cmd := [],
                exposedPorts := [] },
    hostConfig := { portBindings := egTableB, binds := [], mounts := [] } }

/-- Example inspect record with two binding-table keys sharing the bare
port number 80: 80/tcp bound once, 80/udp present with an empty binding
list, and 80/udp exposed. -/
def egContainerDualProto : ContainerJSON :=
  { name := "/dual",
    config := { image := "img-d", env := [], entrypoint := [], cmd := [],
                exposedPorts := [⟨80, "udp"⟩] },
    hostConfig := { portBindings :=
                      [(⟨80, "tcp"⟩, [⟨"0.0.0.0", "8080"⟩]),
                       (⟨80, "udp"⟩, [])],
                    binds := [], mounts := [] } }

/-! ### Helper lemmas -/

theorem String_mk_data (s : String) : String.mk s.data = s := by
  cases s
  rfl

theorem ports_foldl_eq (table : List (PortKey × List PortBinding))
    (init : List ServicePortConfig) :
    table.foldl
      (fun acc e =>
        if e.2.length > 0 then
          acc ++ e.2.map (fun b => ⟨b.hostIP, b.hostPort, e.1.num⟩)
        else acc)
      init
    = init ++
      (table.map
        (fun e => e.2.map
          (fun b => (⟨b.hostIP, b.hostPort, e.1.num⟩ : ServicePortConfig)))).flatten := by
  induction table generalizing init with
  | nil => simp
  | cons e es ih =>
    by_cases h : e.2.length > 0
    · simp only [List.foldl_cons, if_pos h, List.map_cons, List.flatten_cons, ih,
        List.append_assoc]
    · have h0 : e.2.length = 0 := by omega
      have he : e.2 = [] := List.length_eq_zero.mp h0
      simp [List.foldl_cons, he, ih]

theorem mem_setInsert (s : List Nat) (n a : Nat) :
    a ∈ setInsert s n ↔ a ∈ s ∨ a = n := by
  unfold setInsert
  by_cases h : n ∈ s
  · simp only [if_pos h]
    constructor
    · exact Or.inl
    · rintro (ha | rfl)
      · exact ha
      · exact h
  · simp [if_neg h]

theorem mem_inner_fold (l : List PortBinding) (k a : Nat) :
    ∀ s, a ∈ l.foldl (fun s2 _ => setInsert s2 k) s ↔ a ∈ s ∨ (l ≠ [] ∧ a = k) := by
  induction l with
  | nil => simp
  | cons b bs ih =>
    intro s
    simp only [List.foldl_cons, ih, mem_setInsert]
    constructor
    · rintro ((h | h) | h)
      · exact Or.inl h
      · exact Or.inr ⟨by simp, h⟩
      · exact Or.inr ⟨by simp, h.2⟩
    · rintro (h | ⟨-, h⟩)
      · exact Or.inl (Or.inl h)
      · exact Or.inl (Or.inr h)

theorem mem_portsBindingSet_aux (table : List (PortKey × List PortBinding)) (a : Nat) :
    ∀ s, a ∈ table.foldl
        (fun s e =>
          if e.2.length > 0 then e.2.foldl (fun s2 _ => setInsert s2 e.1.num) s
          else s)
        s
      ↔ a ∈ s ∨ ∃ e ∈ table, e.1.num = a ∧ e.2 ≠ [] := by
  induction table with
  | nil => simp
  | cons e es ih =>
    intro s
    by_cases h : e.2.length > 0
    · have hne : e.2 ≠ [] := by
        intro hnil
        rw [hnil] at h
        simp at h
      simp only [List.foldl_cons, if_pos h, ih, mem_inner_fold]
      constructor
      · rintro ((hs | ⟨-, rfl⟩) | ⟨e', he', hnum, hne'⟩)
        · exact Or.inl hs
        · exact Or.inr ⟨e, List.mem_cons_self .., rfl, hne⟩
        · exact Or.inr ⟨e', List.mem_cons_of_mem _ he', hnum, hne'⟩
      · rintro (hs | ⟨e', he', hnum, hne'⟩)
        · exact Or.inl (Or.inl hs)
        · rcases List.mem_cons.mp he' with rfl | hmem
          · exact Or.inl (Or.inr ⟨hne', hnum.symm⟩)
          · exact Or.inr ⟨e', hmem, hnum, hne'⟩
    · have he : e.2 = [] := by
        cases h2 : e.2 with
        | nil => rfl
        | cons b bs => rw [h2] at h; simp at h
      simp only [List.foldl_cons, if_neg h, ih]
      constructor
      · rintro (hs | ⟨e', he', hnum, hne'⟩)
        · exact Or.inl hs
        · exact Or.inr ⟨e', List.mem_cons_of_mem _ he', hnum, hne'⟩
      · rintro (hs | ⟨e', he', hnum, hne'⟩)
        · exact Or.inl hs
        · rcases List.mem_cons.mp he' with rfl | hmem
          · exact absurd he hne'
          · exact Or.inr ⟨e', hmem, hnum, hne'⟩

theorem mem_portsBindingSet (table : List (PortKey × List PortBinding)) (a : Nat) :
    a ∈ portsBindingSet table ↔ ∃ e ∈ table, e.1.num = a ∧ e.2 ≠ [] := by
  unfold portsBindingSet
  rw [mem_portsBindingSet_aux]
  simp

theorem mem_exposed_foldl (l : List PortKey) (bound : List Nat) (a : Nat) :
    ∀ init, a ∈ l.foldl
        (fun acc p => if p.num ∈ bound then acc else acc ++ [p.num]) init
      ↔ a ∈ init ∨ ∃ p ∈ l, p.num = a ∧ p.num ∉ bound := by
  induction l with
  | nil => simp
  | cons p ps ih =>
    intro init
    by_cases h : p.num ∈ bound
    · simp only [List.foldl_cons, if_pos h, ih]
      constructor
      · rintro (hi | ⟨q, hq, hnum, hnb⟩)
        · exact Or.inl hi
        · exact Or.inr ⟨q, List.mem_cons_of_mem _ hq, hnum, hnb⟩
      · rintro (hi | ⟨q, hq, hnum, hnb⟩)
        · exact Or.inl hi
        · rcases List.mem_cons.mp hq with rfl | hmem
          · exact absurd h hnb
          · exact Or.inr ⟨q, hmem, hnum, hnb⟩
    · simp only [List.foldl_cons, if_neg h, ih, List.mem_append, List.mem_singleton]
      constructor
      · rintro ((hi | rfl) | ⟨q, hq, hnum, hnb⟩)
        · exact Or.inl hi
        · exact Or.inr ⟨p, List.mem_cons_self .., rfl, h⟩
        · exact Or.inr ⟨q, List.mem_cons_of_mem _ hq, hnum, hnb⟩
      · rintro (hi | ⟨q, hq, hnum, hnb⟩)
        · exact Or.inl (Or.inl hi)
        · rcases List.mem_cons.mp hq with rfl | hmem
          · exact Or.inl (Or.inr hnum.symm)
          · exact Or.inr ⟨q, hmem, hnum, hnb⟩

theorem filter_ports_flatten (table : List (PortKey × List PortBinding))
    (p : PortKey) (bs : List PortBinding)
    (hnodup : (table.map (fun e => e.1.num)).Nodup)
    (hmem : (p, bs) ∈ table) :
    ((table.map (fun e => e.2.map
        (fun b => (⟨b.hostIP, b.hostPort, e.1.num⟩ : ServicePortConfig)))).flatten).filter
      (fun e => e.target == p.num)
    = bs.map (fun b => ⟨b.hostIP, b.hostPort, p.num⟩) := by
  induction table with
  | nil => cases hmem
  | cons e es ih =>
    rw [List.map_cons, List.flatten_cons, List.filter_append]
    rw [List.map_cons] at hnodup
    have hn := List.nodup_cons.mp hnodup
    rcases List.mem_cons.mp hmem with heq | hmem'
    · cases heq
      have hfilter1 : (bs.map
          (fun b => (⟨b.hostIP, b.hostPort, p.num⟩ : ServicePortConfig))).filter
            (fun e => e.target == p.num)
          = bs.map (fun b => ⟨b.hostIP, b.hostPort, p.num⟩) := by
        apply List.filter_eq_self.mpr
        intro a ha
        rcases List.mem_map.mp ha with ⟨b, -, rfl⟩
        simp
      have hfilter2 : ((es.map (fun e => e.2.map
          (fun b => (⟨b.hostIP, b.hostPort, e.1.num⟩ : ServicePortConfig)))).flatten).filter
            (fun e => e.target == p.num) = [] := by
        apply List.filter_eq_nil_iff.mpr
        intro a ha
        rcases List.mem_flatten.mp ha with ⟨l, hl, hal⟩
        rcases List.mem_map.mp hl with ⟨e', he', rfl⟩
        rcases List.mem_map.mp hal with ⟨b, -, rfl⟩
        have : e'.1.num ≠ p.num := by
          intro hcontra
          exact hn.1 (hcontra ▸ List.mem_map.mpr ⟨e', he', rfl⟩)
        simpa using this
      rw [hfilter1, hfilter2, List.append_nil]
    · have hne : e.1.num ≠ p.num := by
        intro hcontra
        exact hn.1 (hcontra ▸ List.mem_map.mpr ⟨(p, bs), hmem', rfl⟩)
      have hfilter1 : (e.2.map
          (fun b => (⟨b.hostIP, b.hostPort, e.1.num⟩ : ServicePortConfig))).filter
            (fun x => x.target == p.num) = [] := by
        apply List.filter_eq_nil_iff.mpr
        intro a ha
        rcases List.mem_map.mp ha with ⟨b, -, rfl⟩
        simpa using hne
      rw [hfilter1, List.nil_append]
      exact ih hn.2 hmem'

theorem getServiceBindingsPorts_fst (c : ContainerJSON) :
    (getServiceBindingsPorts c).1 =
      (c.hostConfig.portBindings.map (fun e => e.2.map
        (fun b => (⟨b.hostIP, b.hostPort, e.1.num⟩ : ServicePortConfig)))).flatten := by
  unfold getServiceBindingsPorts
  rw [ports_foldl_eq]
  simp

theorem mem_getServiceBindingsPorts_snd (c : ContainerJSON) (a : Nat) :
    a ∈ (getServiceBindingsPorts c).2 ↔
      ∃ p ∈ c.config.exposedPorts,
        p.num = a ∧ p.num ∉ portsBindingSet c.hostConfig.portBindings := by
  unfold getServiceBindingsPorts
  rw [mem_exposed_foldl]
  simp

/-! ### Claim theorems -/

/-- C1 counterexample: in `egContainerDualProto` the key 80/udp has a
present but empty binding list, yet its bare port number 80 is marked
published (the mark set `portsBinding` is keyed by `port.Port()`, the
bare number, which the bound 80/tcp entry inserted), and the exposed
80/udp entry is consequently suppressed — refuting the claim's "is not
marked published" part for present-but-empty binding lists. -/
theorem claim_C1_port_mapper_counterexample :
    ((⟨80, "udp"⟩ : PortKey), ([] : List PortBinding))
        ∈ egContainerDualProto.hostConfig.portBindings
    ∧ (80 : Nat) ∈ portsBindingSet egContainerDualProto.hostConfig.portBindings
    ∧ (⟨80, "udp"⟩ : PortKey) ∈ egContainerDualProto.config.exposedPorts
    ∧ (getServiceBindingsPorts egContainerDualProto).2 = [] :=
  ⟨by decide, by decide, by decide, rfl⟩

/-- C1 (amended): `getServiceBindingsPorts` emits, in table order, exactly
one published-port entry per host binding, carrying that binding's host IP
and host port and the container port's bare number as target; for every
table key with at least one binding, its bare port number never appears in
the exposed-port output.  A key with a present but empty binding list
contributes no published entry, and it is not marked published provided no
other table key sharing its bare port number has a binding — the published
mark is keyed by the bare number, ignoring protocol, so a bound 80/tcp
also marks 80/udp published. -/
theorem claim_C1_port_mapper (c : ContainerJSON) (p : PortKey)
    (bs : List PortBinding)
    (hmem : (p, bs) ∈ c.hostConfig.portBindings) :
    (getServiceBindingsPorts c).1
        = (c.hostConfig.portBindings.map (fun e => e.2.map
            (fun b => (⟨b.hostIP, b.hostPort, e.1.num⟩ : ServicePortConfig)))).flatten
      ∧ (bs ≠ [] → p.num ∉ (getServiceBindingsPorts c).2)
      ∧ (bs = [] →
          (∀ e ∈ c.hostConfig.portBindings, e.1.num = p.num → e.2 = []) →
          p.num ∉ portsBindingSet c.hostConfig.portBindings) := by
  refine ⟨getServiceBindingsPorts_fst c, ?_, ?_⟩
  · intro hbs hexp
    rcases (mem_getServiceBindingsPorts_snd c p.num).mp hexp with ⟨q, -, hqa, hnb⟩
    have hbound : p.num ∈ portsBindingSet c.hostConfig.portBindings :=
      (mem_portsBindingSet c.hostConfig.portBindings p.num).mpr
        ⟨(p, bs), hmem, rfl, hbs⟩
    rw [hqa] at hnb
    exact hnb hbound
  · intro _ hall hmem'
    rcases (mem_portsBindingSet c.hostConfig.portBindings p.num).mp hmem'
      with ⟨e, he, hnum, hne⟩
    exact hne (hall e he hnum)

/-- Witness for C1 (amended): in `egContainerWeb`, port 80/tcp bound twice
yields exactly its two per-binding entries and 80 is absent from the
exposed output; 443/tcp with a present-but-empty binding list (and no
other key numbered 443) is not marked published. -/
theorem claim_C1_port_mapper_witness :
    (((⟨80, "tcp"⟩ : PortKey), [(⟨"0.0.0.0", "8080"⟩ : PortBinding), ⟨"::", "8080"⟩])
          ∈ egContainerWeb.hostConfig.portBindings
      ∧ ([(⟨"0.0.0.0", "8080"⟩ : PortBinding), ⟨"::", "8080"⟩] : List PortBinding) ≠ []
      ∧ ((⟨443, "tcp"⟩ : PortKey), ([] : List PortBinding))
          ∈ egContainerWeb.hostConfig.portBindings
      ∧ (∀ e ∈ egContainerWeb.hostConfig.portBindings, e.1.num = 443 → e.2 = []))
    ∧ (getServiceBindingsPorts egContainerWeb).1
        = [⟨"0.0.0.0", "8080", 80⟩, ⟨"::", "8080", 80⟩]
    ∧ (80 : Nat) ∉ (getServiceBindingsPorts egContainerWeb).2
    ∧ (443 : Nat) ∉ portsBindingSet egContainerWeb.hostConfig.portBindings := by
  refine ⟨⟨by decide, by decide, by decide, by decide⟩, ?_, ?_, ?_⟩
  · rw [(claim_C1_port_mapper egContainerWeb ⟨80, "tcp"⟩
      [⟨"0.0.0.0", "8080"⟩, ⟨"::", "8080"⟩] (by decide)).1]
    decide
  · exact (claim_C1_port_mapper egContainerWeb ⟨80, "tcp"⟩
      [⟨"0.0.0.0", "8080"⟩, ⟨"::", "8080"⟩] (by decide)).2.1 (by decide)
  · exact (claim_C1_port_mapper egContainerWeb ⟨443, "tcp"⟩ [] (by decide)).2.2
      rfl (by decide)

/-- C2 counterexample: the container named exactly `/` has a present name
whose stripped form is empty, yet `getServiceName` returns the empty
string, not the synthetic `service-0` the claim requires. -/
theorem claim_C2_name_mapper_counterexample :
    getServiceName egContainerSlash 0 = ""
    ∧ getServiceName egContainerSlash 0 ≠ "service-" ++ toString (0 : Nat) := by
  refine ⟨rfl, ?_⟩
  decide

/-- C2 (amended): `getServiceName` strips exactly one leading `/` when
present; the synthetic `service-<index>` name is produced only when the
engine-supplied name is absent (empty), not when the stripped result is
empty; a non-empty name with no leading `/` passes through; it never
fails. -/
theorem claim_C2_name_mapper (c : ContainerJSON) (seed : Nat) :
    (c.name = "" → getServiceName c seed = "service-" ++ toString seed)
    ∧ (∀ rest : String, c.name = "/" ++ rest → getServiceName c seed = rest)
    ∧ (∀ ch : Char, ∀ cs : List Char,
        c.name.data = ch :: cs → ch ≠ '/' → getServiceName c seed = c.name) := by
  refine ⟨?_, ?_, ?_⟩
  · intro h
    unfold getServiceName
    rw [if_neg (by simp [h])]
  · intro rest h
    have hdata : c.name.data = '/' :: rest.data := by
      rw [h]
      show (String.mk ("/".data ++ rest.data)).data = '/' :: rest.data
      rfl
    have hne : c.name ≠ "" := by
      intro hcontra
      rw [hcontra] at hdata
      exact List.noConfusion hdata
    unfold getServiceName
    rw [if_pos hne]
    rw [hdata]
    exact String_mk_data rest
  · intro ch cs hdata hch
    have hne : c.name ≠ "" := by
      intro hcontra
      rw [hcontra] at hdata
      exact List.noConfusion hdata
    unfold getServiceName
    rw [if_pos hne, hdata]
    split
    · rename_i rest heq
      injection heq with h1 h2
      exact absurd h1 hch
    · rfl

/-- Witness for C2 (amended): the name `/web` is stripped of exactly one
leading separator. -/
theorem claim_C2_name_mapper_witness :
    egContainerWeb.name = "/" ++ "web"
    ∧ getServiceName egContainerWeb 0 = "web" :=
  ⟨by decide, (claim_C2_name_mapper egContainerWeb 0).2.1 "web" (by decide)⟩

/-- C4: the command field of the assembled service is present exactly when
the container's command list is non-empty, and then carries that list;
when the list is empty the field is omitted (`none`). -/
theorem claim_C4_command_omission (c : ContainerJSON) (name : String) :
    ((assembleService c name).command = none ↔ c.config.cmd = [])
    ∧ (c.config.cmd ≠ [] → (assembleService c name).command = some c.config.cmd) := by
  unfold assembleService getServiceCmd
  cases h : c.config.cmd with
  | nil => simp [h]
  | cons a as => simp [h]

/-- Witness for C4: a container with non-empty command keeps it; its
assembled service carries the command. -/
theorem claim_C4_command_omission_witness :
    egContainerNamed.config.cmd ≠ []
    ∧ (assembleService egContainerNamed "web").command
        = some egContainerNamed.config.cmd :=
  ⟨by decide, (claim_C4_command_omission egContainerNamed "web").2 (by decide)⟩

theorem processContainers_fail (inspect : String → Except String ContainerJSON)
    (a e : String) (rest : List String) :
    ∀ (pre : List String) (i : Nat) (svcs : List (String × ServiceConfig)),
      (∀ b ∈ pre, ∃ cb, inspect b = .ok cb) → inspect a = .error e →
      processContainers inspect (pre ++ a :: rest) i svcs = .error e := by
  intro pre
  induction pre with
  | nil =>
    intro i svcs _ ha
    simp [processContainers, ha]
  | cons b bs ih =>
    intro i svcs hpre ha
    rcases hpre b (List.mem_cons_self ..) with ⟨cb, hcb⟩
    simp only [List.cons_append]
    unfold processContainers
    rw [hcb]
    exact ih _ _ (fun b' hb' => hpre b' (List.mem_cons_of_mem _ hb')) ha

/-- C5: if inspecting one identifier fails (all identifiers before it
succeeding), the whole run aborts with that error propagated unchanged and
no output is produced (the result is the bare error, not a document). -/
theorem claim_C5_failfast (inspect : String → Except String ContainerJSON)
    (marshal : Project → Except String String) (pn wd : String)
    (pre : List String) (a e : String) (rest : List String)
    (hpre : ∀ b ∈ pre, ∃ cb, inspect b = .ok cb)
    (ha : inspect a = .error e) :
    runGenerate inspect marshal pn wd (pre ++ a :: rest) = .error e := by
  unfold runGenerate
  rw [processContainers_fail inspect a e rest pre 0 [] hpre ha]

/-- Witness for C5: identifier `bad` fails under `egInspectFail`; the run
over `["good", "bad", "later"]` aborts with the error `boom`. -/
theorem claim_C5_failfast_witness :
    (∀ b ∈ ["good"], ∃ cb, egInspectFail b = .ok cb)
    ∧ egInspectFail "bad" = .error "boom"
    ∧ runGenerate egInspectFail egMarshalOk "proj" "wd"
        (["good"] ++ "bad" :: ["later"]) = .error "boom" := by
  have hgood : ∀ b ∈ ["good"], ∃ cb, egInspectFail b = .ok cb := by
    intro b hb
    rcases List.mem_singleton.mp hb with rfl
    exact ⟨egContainerNamed, by unfold egInspectFail; rw [if_neg (by decide)]⟩
  have hbad : egInspectFail "bad" = .error "boom" := by
    unfold egInspectFail
    rw [if_pos rfl]
  exact ⟨hgood, hbad,
    claim_C5_failfast egInspectFail egMarshalOk "proj" "wd" ["good"] "bad" "boom"
      ["later"] hgood hbad⟩

/-- C7: when every inspect succeeds, a serialization failure is reported as
the `oops bad` diagnostic but the run still completes successfully with
best-effort output (the newline that precedes the document text). -/
theorem claim_C7_serialization_soft (inspect : String → Except String ContainerJSON)
    (marshal : Project → Except String String) (pn wd : String)
    (args : List String) (svcs : List (String × ServiceConfig)) (e : String)
    (h1 : processContainers inspect args 0 [] = .ok svcs)
    (h2 : marshal ⟨pn, wd, svcs⟩ = .error e) :
    runGenerate inspect marshal pn wd args = .ok ⟨["oops bad " ++ e], "\n"⟩ := by
  simp only [runGenerate, h1, h2]

/-- Witness for C7: a failing serializer leaves the run successful with
the diagnostic recorded. -/
theorem claim_C7_serialization_soft_witness :
    processContainers egInspect2 ["c0"] 0 []
        = .ok [("service-1", assembleService egContainerNamed "service-1")]
    ∧ egMarshalFail ⟨"proj", "wd",
        [("service-1", assembleService egContainerNamed "service-1")]⟩
        = .error "nope"
    ∧ runGenerate egInspect2 egMarshalFail "proj" "wd" ["c0"]
        = .ok ⟨["oops bad nope"], "\n"⟩ :=
  ⟨rfl, rfl,
    claim_C7_serialization_soft egInspect2 egMarshalFail "proj" "wd" ["c0"]
      [("service-1", assembleService egContainerNamed "service-1")] "nope" rfl rfl⟩

/-- C6 counterexample: the name `service-1` synthesized for the unnamed
container at index 1 collides with the engine-supplied name of the first
container, and the aggregator's last-write-wins insertion leaves a single
entry for the two input containers. -/
theorem claim_C6_unique_names_counterexample :
    getServiceName egContainerNamed 0 = "service-1"
    ∧ getServiceName egContainerUnnamed 1 = "service-1"
    ∧ processContainers egInspect2 ["c0", "c1"] 0 [] = .ok egCollidedServices
    ∧ egCollidedServices.length = 1 := by
  exact ⟨rfl, rfl, rfl, rfl⟩

theorem nodup_keys_upsertService (svcs : List (String × ServiceConfig))
    (name : String) (s : ServiceConfig) (h : (svcs.map Prod.fst).Nodup) :
    ((upsertService svcs name s).map Prod.fst).Nodup := by
  unfold upsertService
  by_cases hany : svcs.any (fun p => p.1 = name)
  · rw [if_pos hany]
    have hkeys : (svcs.map (fun p => if p.1 = name then (name, s) else p)).map Prod.fst
        = svcs.map Prod.fst := by
      rw [List.map_map]
      apply List.map_congr_left
      intro p _
      by_cases hpn : p.1 = name
      · simp [Function.comp, hpn]
      · simp [Function.comp, hpn]
    rw [hkeys]
    exact h
  · rw [if_neg hany, List.map_append]
    simp only [List.map_cons, List.map_nil]
    rw [List.nodup_append]
    refine ⟨h, List.nodup_singleton _, ?_⟩
    intro a ha hb
    rcases List.mem_singleton.mp hb with rfl
    rcases List.mem_map.mp ha with ⟨p, hp, hfst⟩
    rw [List.any_eq_true] at hany
    exact hany ⟨p, hp, by simp [hfst]⟩

/-- C6 (amended): the service mapping always has pairwise-distinct names
(one entry per distinct name); but a synthesized name may collide with an
engine-supplied name already inserted, in which case the later service
overwrites the earlier one (last-write-wins) and the mapping has fewer
entries than input containers. -/
theorem claim_C6_unique_names (inspect : String → Except String ContainerJSON)
    (args : List String) :
    ∀ (i : Nat) (svcs res : List (String × ServiceConfig)),
      (svcs.map Prod.fst).Nodup →
      processContainers inspect args i svcs = .ok res →
      (res.map Prod.fst).Nodup := by
  induction args with
  | nil =>
    intro i svcs res h hp
    simp only [processContainers] at hp
    cases hp
    exact h
  | cons a rest ih =>
    intro i svcs res h hp
    unfold processContainers at hp
    cases hcase : inspect a with
    | error e =>
      rw [hcase] at hp
      exact absurd hp (by simp)
    | ok c =>
      rw [hcase] at hp
      exact ih _ _ _ (nodup_keys_upsertService _ _ _ h) hp

/-- Witness for C6 (amended): the colliding two-container run still yields
a mapping with pairwise-distinct names. -/
theorem claim_C6_unique_names_witness :
    (([] : List (String × ServiceConfig)).map Prod.fst).Nodup
    ∧ processContainers egInspect2 ["c0", "c1"] 0 [] = .ok egCollidedServices
    ∧ (egCollidedServices.map Prod.fst).Nodup :=
  ⟨List.nodup_nil, rfl,
    claim_C6_unique_names egInspect2 ["c0", "c1"] 0 [] egCollidedServices
      List.nodup_nil rfl⟩

theorem mounts_foldl_eq (l : List String) :
    ∀ acc : List ServiceVolumeConfig × List String,
      l.foldl
        (fun acc b =>
          match processBind b with
          | .ok m => (acc.1 ++ [m], acc.2)
          | .error w => (acc.1, acc.2 ++ [w]))
        acc
      = (acc.1 ++ l.filterMap (fun b => (processBind b).toOption),
         acc.2 ++ l.filterMap bindWarning) := by
  induction l with
  | nil => intro acc; simp
  | cons b bs ih =>
    intro acc
    cases hb : processBind b with
    | ok m =>
      simp only [List.foldl_cons, hb, List.filterMap_cons]
      rw [ih]
      simp [bindWarning, hb, Except.toOption]
    | error w =>
      simp only [List.foldl_cons, hb, List.filterMap_cons]
      rw [ih]
      simp [bindWarning, hb, Except.toOption]

/-- C3: a legacy bind string splitting into fewer than 2 fields is a
per-entry soft failure (a warning, no mount); exactly 2 fields gives a
bind mount read-only by default; a third field `rw` flips read-only off
while any other third field is ignored; and over a whole batch the mounts
are exactly those of the well-formed entries (malformed ones contribute
only their warning, without aborting the rest). -/
theorem claim_C3_legacy_binds :
    (∀ b : String, (splitColon b).length < 2 →
        processBind b = .error ("unable to process bind mount: " ++ b))
    ∧ (∀ b s t : String, splitColon b = [s, t] →
        processBind b = .ok ⟨"bind", s, t, true, "", none, none, none⟩)
    ∧ (∀ b s t : String, splitColon b = [s, t, "rw"] →
        processBind b = .ok ⟨"bind", s, t, false, "", none, none, none⟩)
    ∧ (∀ b s t m : String, splitColon b = [s, t, m] → m ≠ "rw" →
        processBind b = .ok ⟨"bind", s, t, true, "", none, none, none⟩)
    ∧ (∀ c : ContainerJSON,
        (getServiceMounts c).1
            = c.hostConfig.binds.filterMap (fun b => (processBind b).toOption)
              ++ c.hostConfig.mounts.map structuredMount
          ∧ (getServiceMounts c).2 = c.hostConfig.binds.filterMap bindWarning) := by
  refine ⟨?_, ?_, ?_, ?_, ?_⟩
  · intro b hlen
    unfold processBind
    cases h : splitColon b with
    | nil => rfl
    | cons s rest =>
      cases rest with
      | nil => rfl
      | cons t rest2 => exact absurd hlen (by rw [h]; simp)
  · intro b s t h
    unfold processBind
    rw [h]
  · intro b s t h
    unfold processBind
    rw [h]
    simp
  · intro b s t m h hm
    unfold processBind
    rw [h]
    simp [hm]
  · intro c
    unfold getServiceMounts
    rw [mounts_foldl_eq]
    simp

/-- Witness for C3: `/host` (no colon) is rejected with the warning text;
`/host:/container:rw` yields a bind mount with read-only off. -/
theorem claim_C3_legacy_binds_witness :
    (splitColon "/host").length < 2
    ∧ processBind "/host" = .error ("unable to process bind mount: " ++ "/host")
    ∧ splitColon "/host:/container:rw" = ["/host", "/container", "rw"]
    ∧ processBind "/host:/container:rw"
        = .ok ⟨"bind", "/host", "/container", false, "", none, none, none⟩ :=
  ⟨by decide, claim_C3_legacy_binds.1 "/host" (by decide), by decide,
    claim_C3_legacy_binds.2.2.1 "/host:/container:rw" "/host" "/container"
      (by decide)⟩

/-- C10: a legacy bind string splitting into four or more fields still
yields a bind mount with read-only true — the `rw` flip applies only to an
exactly-three-field split — even when the third field is `rw`. -/
theorem claim_C10_four_fields (b s t m1 m2 : String) (rest : List String)
    (h : splitColon b = s :: t :: m1 :: m2 :: rest) :
    processBind b = .ok ⟨"bind", s, t, true, "", none, none, none⟩ := by
  unfold processBind
  rw [h]

/-- Witness for C10: four fields with third field `rw` stay read-only. -/
theorem claim_C10_four_fields_witness :
    splitColon "/a:/b:rw:z" = ["/a", "/b", "rw", "z"]
    ∧ processBind "/a:/b:rw:z"
        = .ok ⟨"bind", "/a", "/b", true, "", none, none, none⟩ :=
  ⟨by decide, claim_C10_four_fields "/a:/b:rw:z" "/a" "/b" "rw" "z" [] (by decide)⟩

/-- C9: the published-port output is not a function of the binding table's
contents alone — `egTableA` and `egTableB` enumerate the same two-entry
map (they are permutations of one another, as Go's randomized map
iteration may produce either across two runs of the same input), yet the
emitted published-port lists differ, so the serialized output order is not
stable across runs. -/
theorem claim_C9_order_instability :
    egTableA.Perm egTableB
    ∧ egContainerOrderA.hostConfig.portBindings = egTableA
    ∧ egContainerOrderB.hostConfig.portBindings = egTableB
    ∧ (getServiceBindingsPorts egContainerOrderA).1
        ≠ (getServiceBindingsPorts egContainerOrderB).1 := by
  refine ⟨by decide, rfl, rfl, by decide⟩

theorem String_data_append (a b : String) : (a ++ b).data = a.data ++ b.data := by
  cases a
  cases b
  rfl

theorem cutEqAux_no_eq (cs : List Char) :
    ∀ acc : List Char, '=' ∉ cs →
      cutEqAux cs acc = (String.mk (acc.reverse ++ cs), none) := by
  induction cs with
  | nil => intro acc _; simp [cutEqAux]
  | cons c cs' ih =>
    intro acc h
    have hc : c ≠ '=' := fun hcc => h (hcc ▸ List.mem_cons_self ..)
    unfold cutEqAux
    rw [if_neg hc, ih (c :: acc) (fun hm => h (List.mem_cons_of_mem _ hm))]
    simp

theorem cutEqAux_with_eq (cs : List Char) :
    ∀ acc v : List Char, '=' ∉ cs →
      cutEqAux (cs ++ '=' :: v) acc
        = (String.mk (acc.reverse ++ cs), some (String.mk v)) := by
  induction cs with
  | nil =>
    intro acc v _
    simp [cutEqAux]
  | cons c cs' ih =>
    intro acc v h
    have hc : c ≠ '=' := fun hcc => h (hcc ▸ List.mem_cons_self ..)
    simp only [List.cons_append]
    unfold cutEqAux
    rw [if_neg hc, ih (c :: acc) v (fun hm => h (List.mem_cons_of_mem _ hm))]
    simp

theorem nodup_keys_upsertEnv (m : List (String × Option String))
    (k : String) (v : Option String) (h : (m.map Prod.fst).Nodup) :
    ((upsertEnv m k v).map Prod.fst).Nodup := by
  unfold upsertEnv
  by_cases hany : m.any (fun p => p.1 = k)
  · rw [if_pos hany]
    have hkeys : (m.map (fun p => if p.1 = k then (k, v) else p)).map Prod.fst
        = m.map Prod.fst := by
      rw [List.map_map]
      apply List.map_congr_left
      intro p _
      by_cases hpk : p.1 = k
      · simp [Function.comp, hpk]
      · simp [Function.comp, hpk]
    rw [hkeys]
    exact h
  · rw [if_neg hany, List.map_append]
    simp only [List.map_cons, List.map_nil]
    rw [List.nodup_append]
    refine ⟨h, List.nodup_singleton _, ?_⟩
    intro a ha hb
    rcases List.mem_singleton.mp hb with rfl
    rcases List.mem_map.mp ha with ⟨p, hp, hfst⟩
    rw [List.any_eq_true] at hany
    exact hany ⟨p, hp, by simp [hfst]⟩

theorem keys_upsertEnv (m : List (String × Option String))
    (k : String) (v : Option String) :
    (upsertEnv m k v).map Prod.fst
      = if m.any (fun p => p.1 = k) then m.map Prod.fst
        else m.map Prod.fst ++ [k] := by
  unfold upsertEnv
  by_cases hany : m.any (fun p => p.1 = k)
  · rw [if_pos hany, if_pos hany, List.map_map]
    apply List.map_congr_left
    intro p _
    by_cases hpk : p.1 = k
    · simp [Function.comp, hpk]
    · simp [Function.comp, hpk]
  · rw [if_neg hany, if_neg hany, List.map_append]
    rfl

theorem lookupEnv_replace_ne (k k' : String) (v : Option String)
    (hne : k' ≠ k) :
    ∀ m : List (String × Option String),
      lookupEnv (m.map (fun p => if p.1 = k then (k, v) else p)) k'
        = lookupEnv m k' := by
  intro m
  induction m with
  | nil => rfl
  | cons p ms ih =>
    by_cases hpk : p.1 = k
    · have h1 : (if p.1 = k then (k, v) else p) = (k, v) := if_pos hpk
      simp only [List.map_cons, h1, lookupEnv, List.find?_cons]
      have hk' : (decide (k = k')) = false := by
        simp
        exact fun hcc => hne hcc.symm
      have hp' : (decide (p.1 = k')) = false := by
        simp
        rw [hpk]
        exact fun hcc => hne hcc.symm
      rw [hk', hp']
      exact ih
    · have h1 : (if p.1 = k then (k, v) else p) = p := if_neg hpk
      simp only [List.map_cons, h1, lookupEnv, List.find?_cons]
      cases hp' : (decide (p.1 = k')) with
      | true => rfl
      | false => exact ih

theorem lookupEnv_replace_eq (k : String) (v : Option String) :
    ∀ m : List (String × Option String),
      m.any (fun p => p.1 = k) →
      lookupEnv (m.map (fun p => if p.1 = k then (k, v) else p)) k = some v := by
  intro m
  induction m with
  | nil => intro h; simp at h
  | cons p ms ih =>
    intro hany
    by_cases hpk : p.1 = k
    · have h1 : (if p.1 = k then (k, v) else p) = (k, v) := if_pos hpk
      simp [lookupEnv, List.find?_cons, h1]
    · have h1 : (if p.1 = k then (k, v) else p) = p := if_neg hpk
      simp only [List.map_cons, h1, lookupEnv, List.find?_cons]
      have hp' : (decide (p.1 = k)) = false := by simpa using hpk
      rw [hp']
      apply ih
      rcases List.any_eq_true.mp hany with ⟨q, hq, hqk⟩
      rcases List.mem_cons.mp hq with rfl | hq'
      · exact absurd (by simpa using hqk) hpk
      · exact List.any_eq_true.mpr ⟨q, hq', hqk⟩

theorem lookupEnv_append_eq (k : String) (v : Option String) :
    ∀ m : List (String × Option String),
      ¬ m.any (fun p => p.1 = k) →
      lookupEnv (m ++ [(k, v)]) k = some v := by
  intro m
  induction m with
  | nil => intro _; simp [lookupEnv, List.find?_cons]
  | cons p ms ih =>
    intro hany
    have hpk : p.1 ≠ k := by
      intro hcc
      exact hany (List.any_eq_true.mpr ⟨p, List.mem_cons_self .., by simpa using hcc⟩)
    simp only [List.cons_append, lookupEnv, List.find?_cons]
    have hp' : (decide (p.1 = k)) = false := by simpa using hpk
    rw [hp']
    apply ih
    intro hcontra
    rcases List.any_eq_true.mp hcontra with ⟨q, hq, hqk⟩
    exact hany (List.any_eq_true.mpr ⟨q, List.mem_cons_of_mem _ hq, hqk⟩)

theorem lookupEnv_append_ne (k k' : String) (v : Option String) (hne : k' ≠ k) :
    ∀ m : List (String × Option String),
      lookupEnv (m ++ [(k, v)]) k' = lookupEnv m k' := by
  intro m
  induction m with
  | nil =>
    have hk' : (decide (k = k')) = false := by
      simp
      exact fun hcc => hne hcc.symm
    simp [lookupEnv, List.find?_cons, hk']
  | cons p ms ih =>
    simp only [List.cons_append, lookupEnv, List.find?_cons]
    cases hp' : (decide (p.1 = k')) with
    | true => rfl
    | false => exact ih

theorem lookupEnv_upsertEnv (m : List (String × Option String))
    (k k' : String) (v : Option String) :
    lookupEnv (upsertEnv m k v) k'
      = if k' = k then some v else lookupEnv m k' := by
  unfold upsertEnv
  by_cases hany : m.any (fun p => p.1 = k)
  · rw [if_pos hany]
    by_cases hk : k' = k
    · rw [if_pos hk, hk]
      exact lookupEnv_replace_eq k v m hany
    · rw [if_neg hk]
      exact lookupEnv_replace_ne k k' v hk m
  · rw [if_neg hany]
    by_cases hk : k' = k
    · rw [if_pos hk, hk]
      exact lookupEnv_append_eq k v m hany
    · rw [if_neg hk]
      exact lookupEnv_append_ne k k' v hk m

theorem NME_foldl_keys_nodup (es : List String) :
    ∀ m : List (String × Option String),
      (m.map Prod.fst).Nodup →
      ((es.foldl (fun m s => upsertEnv m (cutEq s).1 (cutEq s).2) m).map
        Prod.fst).Nodup := by
  induction es with
  | nil => intro m h; exact h
  | cons s es' ih =>
    intro m h
    exact ih _ (nodup_keys_upsertEnv m (cutEq s).1 (cutEq s).2 h)

theorem NME_foldl_keys_sublist (es : List String) :
    ∀ m : List (String × Option String),
      List.Sublist
        ((es.foldl (fun m s => upsertEnv m (cutEq s).1 (cutEq s).2) m).map
          Prod.fst)
        (m.map Prod.fst ++ es.map (fun s => (cutEq s).1)) := by
  induction es with
  | nil =>
    intro m
    simp
  | cons s es' ih =>
    intro m
    simp only [List.foldl_cons, List.map_cons]
    have step := ih (upsertEnv m (cutEq s).1 (cutEq s).2)
    rw [keys_upsertEnv] at step
    by_cases hany : m.any (fun p => p.1 = (cutEq s).1)
    · rw [if_pos hany] at step
      refine step.trans ?_
      exact (List.sublist_cons_self _ _).append_left _
    · rw [if_neg hany] at step
      rw [List.append_assoc, List.singleton_append] at step
      exact step

theorem NME_lookup_last (es : List String) (k : String) :
    lookupEnv (NewMappingWithEquals es) k
      = (es.reverse.find? (fun s => (cutEq s).1 == k)).map
          (fun s => (cutEq s).2) := by
  induction es using List.reverseRecOn with
  | nil => rfl
  | append_singleton es' s ih =>
    have hstep : NewMappingWithEquals (es' ++ [s])
        = upsertEnv (NewMappingWithEquals es') (cutEq s).1 (cutEq s).2 := by
      unfold NewMappingWithEquals
      rw [List.foldl_append]
      rfl
    rw [hstep, lookupEnv_upsertEnv, List.reverse_append]
    simp only [List.reverse_singleton, List.singleton_append, List.find?_cons]
    by_cases hk : k = (cutEq s).1
    · rw [if_pos hk]
      have hbeq : ((cutEq s).1 == k) = true := by
        rw [hk]
        exact beq_self_eq_true _
      rw [hbeq]
      rfl
    · rw [if_neg hk]
      have hbeq : ((cutEq s).1 == k) = false := by
        rw [beq_eq_false_iff_ne]
        exact fun hcc => hk hcc.symm
      rw [hbeq]
      exact ih

/-- C8: the environment mapper splits each entry at its first `'='` only
(a bare `KEY` without `'='` maps to no value, `none`, distinct from the
empty-string value; a `KEY=VALUE` entry keeps the literal value, which may
itself be empty or contain `'='`); the resulting mapping has
pairwise-distinct keys appearing in input order (its key sequence is a
sublist of the input's key sequence); and for duplicate keys the last
occurrence wins: lookup returns the value of the last entry with that
key. -/
theorem claim_C8_env_mapping :
    (∀ s : String, '=' ∉ s.data → cutEq s = (s, none))
    ∧ (∀ k v : String, '=' ∉ k.data → cutEq (k ++ "=" ++ v) = (k, some v))
    ∧ (∀ es : List String,
        ((NewMappingWithEquals es).map Prod.fst).Nodup
          ∧ List.Sublist ((NewMappingWithEquals es).map Prod.fst)
              (es.map (fun s => (cutEq s).1)))
    ∧ (∀ (es : List String) (k : String),
        lookupEnv (NewMappingWithEquals es) k
          = (es.reverse.find? (fun s => (cutEq s).1 == k)).map
              (fun s => (cutEq s).2)) := by
  refine ⟨?_, ?_, ?_, ?_⟩
  · intro s h
    unfold cutEq
    rw [cutEqAux_no_eq s.data [] h]
    simp [String_mk_data]
  · intro k v h
    have hdata : (k ++ "=" ++ v).data = k.data ++ '=' :: v.data := by
      rw [String_data_append, String_data_append]
      have hd : ("=" : String).data = ['='] := rfl
      rw [hd, List.append_assoc]
      rfl
    unfold cutEq
    rw [hdata, cutEqAux_with_eq k.data [] v.data h]
    simp [String_mk_data]
  · intro es
    refine ⟨NME_foldl_keys_nodup es [] (by simp), ?_⟩
    have h := NME_foldl_keys_sublist es []
    simpa using h
  · exact NME_lookup_last

/-- Witness for C8: `PATH=/usr:/bin` splits at the first `'='` keeping the
`':'`-laden value; in `["A=1", "B", "A="]` the bare `B` maps to no value
and the key `A` resolves to its last occurrence's empty-string value. -/
theorem claim_C8_env_mapping_witness :
    ('=' ∉ "PATH".data)
    ∧ cutEq ("PATH" ++ "=" ++ "/usr:/bin") = ("PATH", some "/usr:/bin")
    ∧ lookupEnv (NewMappingWithEquals ["A=1", "B", "A="]) "A" = some (some "")
    ∧ lookupEnv (NewMappingWithEquals ["A=1", "B", "A="]) "B" = some none :=
  ⟨by decide, claim_C8_env_mapping.2.1 "PATH" "/usr:/bin" (by decide),
    by decide, by decide⟩
